import Mathlib

/-!
# SecureBank core: shallow embedding and verification

This file embeds the session lifecycle manager (`src/lib/session.ts`), the
secure random generators (`src/lib/random.ts`) and the account ledger /
funding coordinator (the tRPC account router) as pure Lean functions over an
explicit store state, and proves the specified properties about them.

Conventions of the embedding:
* Timestamps are natural numbers (milliseconds since the epoch).  The
  TypeScript code compares `Date` objects and ISO-8601 strings; for a fixed
  format both orders agree with the numeric millisecond order.
* A database table is a list of rows in insertion order.  Drizzle's `.get()`
  returns the first matching row and is embedded as `List.find?`; a
  predicate `delete` removes every matching row and is embedded as
  `List.filter` with the negated predicate.
* Currency values (`balance`, `amount`) are fixed-point values; modelled from
  the spec ("non-negative fixed-point currency value" — the db schema module
  is not part of the source snapshot) as integers in minor units.
* `crypto.randomInt` draws from an entropy source; it is embedded as a
  function of an explicit entropy stream `Nat → Nat`, the i-th draw being
  reduced into the requested range.
* A store-level failure inside an atomic unit (`db.transaction`) cannot be
  produced by the pure embedding itself, so it is modelled by an explicit
  failure-injection flag: when the flag is set the unit fails and — matching
  the all-or-nothing commit semantics of the store contract — the state is
  returned unchanged.  The same technique models a failing post-insert
  re-read in `createAccount` (which is *not* inside an atomic unit, so the
  insert persists there).
-/

/-! ## Session data model (`src/lib/session.ts`) -/

/-- A row of the `sessions` table. -/
structure Session where
  id : Nat
  userId : Nat
  token : String
  createdAt : Nat
  expiresAt : Nat
  deriving DecidableEq, Repr

/-- `SESSION_CONFIG.MAX_SESSIONS_PER_USER`. -/
def MAX_SESSIONS_PER_USER : Nat := 1

/-- `SESSION_CONFIG.SESSION_EXPIRY_MS` (7 days in milliseconds). -/
def SESSION_EXPIRY_MS : Nat := 7 * 24 * 60 * 60 * 1000

/-- `db.delete(sessions).where(eq(sessions.token, token))`. -/
def deleteByToken (store : List Session) (token : String) : List Session :=
  store.filter (fun s => decide (¬ s.token = token))

/-- Ascending order on `createdAt`, the comparator used by `enforceSessionLimit`. -/
def createdAtLE (a b : Session) : Prop := a.createdAt ≤ b.createdAt

instance : DecidableRel createdAtLE :=
  fun a b => inferInstanceAs (Decidable (a.createdAt ≤ b.createdAt))

instance : IsTotal Session createdAtLE :=
  ⟨fun a b => Nat.le_total a.createdAt b.createdAt⟩

instance : IsTrans Session createdAtLE :=
  ⟨fun _ _ _ hab hbc => Nat.le_trans hab hbc⟩

/-- `enforceSessionLimit(userId, keepToken)`: if the user's session count is
within the limit, a no-op returning 0; otherwise sorts the user's sessions
excluding `keepToken` by `createdAt` ascending, takes the oldest
`count - limit` of them, deletes each by token, and returns how many it
deleted. -/
def enforceSessionLimit (store : List Session) (userId : Nat) (keepToken : String) :
    Nat × List Session :=
  let userSessions := store.filter (fun s => decide (s.userId = userId))
  if userSessions.length ≤ MAX_SESSIONS_PER_USER then
    (0, store)
  else
    let sessionsToDelete :=
      (List.insertionSort createdAtLE
          (userSessions.filter (fun s => decide (¬ s.token = keepToken)))).take
        (userSessions.length - MAX_SESSIONS_PER_USER)
    (sessionsToDelete.length,
      store.filter (fun s => decide (∀ d ∈ sessionsToDelete, ¬ s.token = d.token)))

/-- `cleanupExpiredSessions()`: one bulk delete of every session with
`expiresAt <= now`; the function body then returns the literal `0`. -/
def cleanupExpiredSessions (store : List Session) (now : Nat) : Nat × List Session :=
  (0, store.filter (fun s => decide (¬ s.expiresAt ≤ now)))

/-- `validateSessionToken(token)`: looks the token up; a missing row gives
`null`; an expired row (`expiresAt <= now`) is deleted and gives `null`;
otherwise the session is returned. -/
def validateSessionToken (store : List Session) (token : String) (now : Nat) :
    Option Session × List Session :=
  match store.find? (fun s => decide (s.token = token)) with
  | none => (none, store)
  | some session =>
    if session.expiresAt ≤ now then
      (none, deleteByToken store token)
    else
      (some session, store)

/-- `invalidateSession(token)`: deletes the session and returns `true` when
present, returns `false` when absent. -/
def invalidateSession (store : List Session) (token : String) : Bool × List Session :=
  match store.find? (fun s => decide (s.token = token)) with
  | none => (false, store)
  | some _ => (true, deleteByToken store token)

/-- `getUserActiveSessions(userId)`: the user's sessions with
`expiresAt > now` (strict). -/
def getUserActiveSessions (store : List Session) (userId : Nat) (now : Nat) :
    List Session :=
  store.filter (fun s => decide (s.userId = userId ∧ now < s.expiresAt))

/-- The record returned by `getSessionInfo`. -/
structure SessionInfo where
  id : Nat
  userId : Nat
  createdAt : Nat
  expiresAt : Nat
  isExpired : Bool
  deriving DecidableEq, Repr

/-- `getSessionInfo(token)`: a pure read; `isExpired` uses the strict
comparison `expiresAt < now`. -/
def getSessionInfo (store : List Session) (token : String) (now : Nat) :
    Option SessionInfo :=
  match store.find? (fun s => decide (s.token = token)) with
  | none => none
  | some s =>
    some { id := s.id, userId := s.userId, createdAt := s.createdAt,
           expiresAt := s.expiresAt, isExpired := decide (s.expiresAt < now) }

/-! ## Secure random generation (`src/lib/random.ts`) -/

/-- `secureRandomInt(min, max)`: `crypto.randomInt(min, max + 1)`, a value in
`[min, max]` drawn from the entropy source; `draw` is the raw entropy of this
call, reduced into the range. -/
def secureRandomInt (lo hi : Nat) (draw : Nat) : Nat :=
  lo + draw % (hi + 1 - lo)

/-- `secureRandomNumeric(length)`: throws on non-positive length, else
concatenates `length` decimal digits, each an independent
`secureRandomInt(0, 9)` call (the i-th call consumes `entropy i`). -/
def secureRandomNumeric (length : Nat) (entropy : Nat → Nat) : Option String :=
  if length = 0 then none
  else some (String.mk ((List.range length).map
    (fun i => Nat.digitChar (secureRandomInt 0 9 (entropy i)))))

/-- `generateSecureAccountNumber()`: a 10-digit numeric string. -/
def generateSecureAccountNumber (entropy : Nat → Nat) : Option String :=
  secureRandomNumeric 10 entropy

/-! ## Account ledger data model (tRPC account router) -/

/-- The tRPC error codes thrown by the account router. -/
inductive TRPCErrorCode where
  | CONFLICT
  | NOT_FOUND
  | BAD_REQUEST
  | INTERNAL_SERVER_ERROR
  deriving DecidableEq, Repr

/-- A row of the `accounts` table. -/
structure Account where
  id : Nat
  userId : Nat
  accountNumber : String
  accountType : String
  balance : Int
  status : String
  deriving DecidableEq, Repr

/-- A row of the `transactions` table. -/
structure Transaction where
  id : Nat
  accountId : Nat
  type : String
  amount : Int
  description : String
  status : String
  createdAt : Nat
  processedAt : Nat
  deriving DecidableEq, Repr

/-- The banking store: both tables plus the autoincrement counters. -/
structure BankDB where
  accounts : List Account
  transactions : List Transaction
  nextAccountId : Nat
  nextTxId : Nat
  deriving DecidableEq, Repr

/-- Descending order on `createdAt` for transactions
(`orderBy(desc(transactions.createdAt))`). -/
def txCreatedAtGE (a b : Transaction) : Prop := b.createdAt ≤ a.createdAt

instance : DecidableRel txCreatedAtGE :=
  fun a b => inferInstanceAs (Decidable (b.createdAt ≤ a.createdAt))

instance : IsTotal Transaction txCreatedAtGE :=
  ⟨fun a b => Nat.le_total b.createdAt a.createdAt⟩

instance : IsTrans Transaction txCreatedAtGE :=
  ⟨fun _ _ _ hab hbc => Nat.le_trans hbc hab⟩

/-- The unbounded uniqueness-retry loop of `createAccount`, unrolled with
fuel: generate a candidate number (consuming ten entropy draws per attempt),
accept it when no account already holds it, otherwise retry. -/
def findUniqueAccountNumber (db : BankDB) (entropy : Nat → Nat) : Nat → Option String
  | 0 => none
  | fuel + 1 =>
    match generateSecureAccountNumber entropy with
    | none => none
    | some candidate =>
      match db.accounts.find? (fun a => decide (a.accountNumber = candidate)) with
      | none => some candidate
      | some _ => findUniqueAccountNumber db (fun i => entropy (i + 10)) fuel

/-- The account row `createAccount` inserts. -/
def newAccountRow (db : BankDB) (userId : Nat) (accountNumber : String)
    (accountType : String) : Account :=
  { id := db.nextAccountId, userId := userId, accountNumber := accountNumber,
    accountType := accountType, balance := 0, status := "active" }

/-- `createAccount(accountType)` for caller `userId`: rejects with `CONFLICT`
when the owner already has an account of that type; otherwise generates a
unique account number, inserts the account with balance 0 and status
`active`, re-reads it by account number, and throws
`INTERNAL_SERVER_ERROR` when the re-read comes back empty (the insert is not
inside an atomic unit, so it persists).  `reReadFails` injects a store
failure into the post-insert re-read. -/
def createAccount (db : BankDB) (userId : Nat) (accountType : String)
    (entropy : Nat → Nat) (fuel : Nat) (reReadFails : Bool) :
    Except TRPCErrorCode Account × BankDB :=
  match db.accounts.find?
      (fun a => decide (a.userId = userId ∧ a.accountType = accountType)) with
  | some _ => (.error .CONFLICT, db)
  | none =>
    match findUniqueAccountNumber db entropy fuel with
    | none => (.error .INTERNAL_SERVER_ERROR, db)
    | some accountNumber =>
      let newAccount : Account := newAccountRow db userId accountNumber accountType
      let db2 : BankDB :=
        { db with accounts := db.accounts ++ [newAccount],
                  nextAccountId := db.nextAccountId + 1 }
      if reReadFails then
        (.error .INTERNAL_SERVER_ERROR, db2)
      else
        match db2.accounts.find? (fun a => decide (a.accountNumber = accountNumber)) with
        | none => (.error .INTERNAL_SERVER_ERROR, db2)
        | some account => (.ok account, db2)

/-- `fundAccount({accountId, amount, fundingSource})` for caller `callerId`:
the zod schema rejects non-positive amounts; a missing or foreign account is
`NOT_FOUND`; a non-active account is `BAD_REQUEST`; then one atomic unit
inserts the deposit row, reads back the newest transaction of the account,
increments the balance by a server-side `balance = balance + amount`, and
re-reads the account; the caller receives the transaction and the re-read
balance.  `unitFails` injects a store failure into the atomic unit, which
then rolls back completely. -/
def fundAccount (db : BankDB) (accountId : Nat) (amount : Int) (sourceType : String)
    (callerId : Nat) (now : Nat) (unitFails : Bool) :
    Except TRPCErrorCode (Option Transaction × Option Int) × BankDB :=
  if amount ≤ 0 then (.error .BAD_REQUEST, db)
  else
    match db.accounts.find? (fun a => decide (a.id = accountId ∧ a.userId = callerId)) with
    | none => (.error .NOT_FOUND, db)
    | some account =>
      if ¬ account.status = "active" then (.error .BAD_REQUEST, db)
      else if unitFails then (.error .INTERNAL_SERVER_ERROR, db)
      else
        let newTx : Transaction :=
          { id := db.nextTxId, accountId := accountId, type := "deposit",
            amount := amount, description := "Funding from " ++ sourceType,
            status := "completed", createdAt := now, processedAt := now }
        let txs := db.transactions ++ [newTx]
        let readBack := (List.insertionSort txCreatedAtGE
          (txs.filter (fun t => decide (t.accountId = accountId)))).head?
        let updatedAccounts := db.accounts.map (fun a =>
          if a.id = accountId then { a with balance := a.balance + amount } else a)
        let updatedAccount := updatedAccounts.find? (fun a => decide (a.id = accountId))
        (.ok (readBack, updatedAccount.map (fun a => a.balance)),
          { db with accounts := updatedAccounts, transactions := txs,
                    nextTxId := db.nextTxId + 1 })

/-- The deposit row `fundAccount` inserts inside its atomic unit. -/
def depositTx (db : BankDB) (accountId : Nat) (amount : Int) (sourceType : String)
    (now : Nat) : Transaction :=
  { id := db.nextTxId, accountId := accountId, type := "deposit", amount := amount,
    description := "Funding from " ++ sourceType, status := "completed",
    createdAt := now, processedAt := now }

/-- A row of the `getTransactions` result: the transaction joined (left) with
its account's type. -/
structure TransactionRow where
  id : Nat
  accountId : Nat
  type : String
  amount : Int
  description : String
  status : String
  createdAt : Nat
  processedAt : Nat
  accountType : Option String
  deriving DecidableEq, Repr

/-- Descending order on `createdAt` for result rows. -/
def rowCreatedAtGE (a b : TransactionRow) : Prop := b.createdAt ≤ a.createdAt

instance : DecidableRel rowCreatedAtGE :=
  fun a b => inferInstanceAs (Decidable (b.createdAt ≤ a.createdAt))

instance : IsTotal TransactionRow rowCreatedAtGE :=
  ⟨fun a b => Nat.le_total b.createdAt a.createdAt⟩

instance : IsTrans TransactionRow rowCreatedAtGE :=
  ⟨fun _ _ _ hab hbc => Nat.le_trans hbc hab⟩

/-- `getTransactions({accountId})` for caller `callerId`: verifies ownership
(`NOT_FOUND` otherwise), then selects the rows with that `accountId`,
left-joined with `accounts` for the account type, ordered by `createdAt`
descending. -/
def getTransactions (db : BankDB) (accountId : Nat) (callerId : Nat) :
    Except TRPCErrorCode (List TransactionRow) :=
  match db.accounts.find? (fun a => decide (a.id = accountId ∧ a.userId = callerId)) with
  | none => .error .NOT_FOUND
  | some _ =>
    let rows := (db.transactions.filter (fun t => decide (t.accountId = accountId))).map
      (fun t =>
        { id := t.id, accountId := t.accountId, type := t.type, amount := t.amount,
          description := t.description, status := t.status, createdAt := t.createdAt,
          processedAt := t.processedAt,
          accountType := (db.accounts.find? (fun a => decide (a.id = t.accountId))).map
            (fun a => a.accountType) : TransactionRow })
    .ok (List.insertionSort rowCreatedAtGE rows)

/-! ## Operation sequences for the ledger invariant -/

/-- One core ledger operation, with its inputs and injected store outcomes. -/
inductive BankOp where
  | create (userId : Nat) (accountType : String) (entropy : Nat → Nat)
      (fuel : Nat) (reReadFails : Bool)
  | fund (accountId : Nat) (amount : Int) (sourceType : String) (callerId : Nat)
      (now : Nat) (unitFails : Bool)

/-- The store after one operation (the caller-visible result is dropped). -/
def applyOp (db : BankDB) : BankOp → BankDB
  | .create u t e f r => (createAccount db u t e f r).2
  | .fund a amt s c n u => (fundAccount db a amt s c n u).2

/-- The store after a sequence of operations. -/
def runOps (ops : List BankOp) (db : BankDB) : BankDB :=
  ops.foldl applyOp db

/-- The empty store. -/
def emptyDB : BankDB :=
  { accounts := [], transactions := [], nextAccountId := 1, nextTxId := 1 }

/-- Modelled from the spec: the signed amount of a ledger entry (deposits
count positively; the core only ever writes deposits). -/
def signedAmount (t : Transaction) : Int :=
  if t.type = "deposit" then t.amount else -t.amount

/-- The ledger sum of one account. -/
def txSum (db : BankDB) (accId : Nat) : Int :=
  ((db.transactions.filter (fun t => decide (t.accountId = accId))).map signedAmount).sum

/-- The system-wide invariant: every stored balance is the signed sum of the
account's ledger entries. -/
def balanceMatchesLedger (db : BankDB) : Prop :=
  ∀ a ∈ db.accounts, a.balance = txSum db a.id

/-- Auxiliary invariant for the ledger induction: balances match the ledger,
every account id is below the id counter, and every ledger row references an
existing account. -/
def ledgerConsistent (db : BankDB) : Prop :=
  balanceMatchesLedger db ∧
  (∀ a ∈ db.accounts, a.id < db.nextAccountId) ∧
  (∀ t ∈ db.transactions, ∃ a ∈ db.accounts, a.id = t.accountId)

/-! ## Concrete fixtures used by witnesses -/

/-- A fixture session. -/
def sessionA : Session :=
  { id := 1, userId := 1, token := "tokA", createdAt := 0, expiresAt := 100 }

/-- A second fixture session of the same user. -/
def sessionB : Session :=
  { id := 2, userId := 1, token := "tokB", createdAt := 10, expiresAt := 200 }

/-! ## Concrete bank fixtures -/

/-- A fixture account owned by user 7. -/
def accountA : Account :=
  { id := 1, userId := 7, accountNumber := "1234567890", accountType := "checking",
    balance := 80, status := "active" }

/-- A first fixture deposit on `accountA`. -/
def txA1 : Transaction :=
  { id := 1, accountId := 1, type := "deposit", amount := 50,
    description := "Funding from card", status := "completed",
    createdAt := 100, processedAt := 100 }

/-- A second, newer fixture deposit on `accountA`. -/
def txA2 : Transaction :=
  { id := 2, accountId := 1, type := "deposit", amount := 30,
    description := "Funding from bank", status := "completed",
    createdAt := 200, processedAt := 200 }

/-- A fixture store with one account and its two deposits. -/
def bankA : BankDB :=
  { accounts := [accountA], transactions := [txA1, txA2],
    nextAccountId := 2, nextTxId := 3 }

/-- The result row of `txA1`. -/
def rowA1 : TransactionRow :=
  { id := 1, accountId := 1, type := "deposit", amount := 50,
    description := "Funding from card", status := "completed",
    createdAt := 100, processedAt := 100, accountType := some "checking" }

/-- The result row of `txA2`. -/
def rowA2 : TransactionRow :=
  { id := 2, accountId := 1, type := "deposit", amount := 30,
    description := "Funding from bank", status := "completed",
    createdAt := 200, processedAt := 200, accountType := some "checking" }

/-! ## Shared helper lemmas -/

/-- With pairwise-distinct keys, a lookup whose predicate pins the key down
returns exactly the given member. -/
theorem find?_eq_some_of_nodup_key {α β : Type} [DecidableEq β] (key : α → β)
    (p : α → Bool) {l : List α} {a : α} (hnd : (l.map key).Nodup) (hmem : a ∈ l)
    (hpa : p a = true) (hkey : ∀ x, p x = true → key x = key a) :
    l.find? p = some a := by
  induction l with
  | nil => cases hmem
  | cons b rest ih =>
    simp only [List.map_cons, List.nodup_cons] at hnd
    rcases List.mem_cons.mp hmem with h | h
    · subst h
      exact List.find?_cons_of_pos _ hpa
    · by_cases hb : p b = true
      · exact absurd ((hkey b hb) ▸ List.mem_map_of_mem key h) hnd.1
      · rw [List.find?_cons_of_neg _ (by simpa using hb)]
        exact ih hnd.2 h

/-- Removing, from a list with pairwise-distinct keys, every element whose
key lies in a duplicate-free list of present keys removes exactly one element
per key. -/
theorem length_filter_key_not_mem {α β : Type} [DecidableEq β] (key : α → β) :
    ∀ (l : List α) (T : List β), (l.map key).Nodup → T.Nodup →
      (∀ t ∈ T, t ∈ l.map key) →
      (l.filter (fun s => decide (¬ key s ∈ T))).length = l.length - T.length := by
  intro l
  induction l with
  | nil =>
    intro T _ _ hsub
    cases T with
    | nil => simp
    | cons t T => exact absurd (hsub t (List.mem_cons_self t T)) (by simp)
  | cons s rest ih =>
    intro T hnd hT hsub
    simp only [List.map_cons, List.nodup_cons] at hnd
    by_cases hs : key s ∈ T
    · have hT1 : 1 ≤ T.length := List.length_pos.mpr (by rintro rfl; cases hs)
      have hlen : (T.erase (key s)).length = T.length - 1 :=
        List.length_erase_of_mem hs
      have hnd2 : (T.erase (key s)).Nodup := hT.erase _
      have hsub2 : ∀ t ∈ T.erase (key s), t ∈ rest.map key := by
        intro t ht
        have h1 := (hT.mem_erase_iff).mp ht
        rcases hsub t h1.2 with h2
        simp only [List.map_cons, List.mem_cons] at h2
        exact h2.resolve_left h1.1
      have hbound : (T.erase (key s)).length ≤ rest.length := by
        have h3 := (List.subperm_of_subset hnd2 hsub2).length_le
        simpa using h3
      have hcongr : rest.filter (fun x => decide (¬ key x ∈ T))
          = rest.filter (fun x => decide (¬ key x ∈ T.erase (key s))) := by
        apply List.filter_congr
        intro x hx
        have hne : key x ≠ key s := by
          intro hcontra
          exact hnd.1 (hcontra ▸ List.mem_map_of_mem key hx)
        simp only [decide_eq_decide, hT.mem_erase_iff]
        constructor
        · intro h1 h2
          exact h1 h2.2
        · intro h1 h2
          exact h1 ⟨hne, h2⟩
      rw [List.filter_cons_of_neg (by simpa using hs), hcongr,
        ih (T.erase (key s)) hnd.2 hnd2 hsub2]
      simp only [List.length_cons]
      omega
    · have hsub2 : ∀ t ∈ T, t ∈ rest.map key := by
        intro t ht
        have h2 := hsub t ht
        simp only [List.map_cons, List.mem_cons] at h2
        refine h2.resolve_left ?_
        rintro rfl
        exact hs ht
      have hbound : T.length ≤ rest.length := by
        have h3 := (List.subperm_of_subset hT hsub2).length_le
        simpa using h3
      rw [List.filter_cons_of_pos (by simpa using hs),
        List.length_cons, ih T hnd.2 hT hsub2]
      simp only [List.length_cons]
      omega

/-- Removing, from a list with pairwise-distinct keys, every element that
shares its key with some member of a duplicate-free eviction list removes
exactly one element per eviction. -/
theorem length_filter_forall_ne {α β : Type} [DecidableEq β] (key : α → β)
    (l dl : List α) (hnd : (l.map key).Nodup) (hdnd : (dl.map key).Nodup)
    (hsub : ∀ d ∈ dl, d ∈ l) :
    (l.filter (fun s => decide (∀ d ∈ dl, ¬ key s = key d))).length
      = l.length - dl.length := by
  have hcong : l.filter (fun s => decide (∀ d ∈ dl, ¬ key s = key d))
      = l.filter (fun s => decide (¬ key s ∈ dl.map key)) := by
    apply List.filter_congr
    intro x _
    rw [decide_eq_decide]
    simp only [List.mem_map]
    constructor
    · rintro h ⟨d, hd, hds⟩
      exact h d hd hds.symm
    · intro h d hd hds
      exact h ⟨d, hd, hds.symm⟩
  have hsub2 : ∀ t ∈ dl.map key, t ∈ l.map key := by
    intro t ht
    obtain ⟨d, hd, rfl⟩ := List.mem_map.mp ht
    exact List.mem_map_of_mem key (hsub d hd)
  rw [hcong, length_filter_key_not_mem key l (dl.map key) hnd hdnd hsub2,
    List.length_map]

/-! ## Claim C6 -/

/-- C6 (code bug): `cleanupExpiredSessions` does bulk-delete every session
with `expiresAt <= now`, but it does not return the number of sessions it
removed: on a store of two sessions that are both expired at `now = 500` the
sweep empties the store yet reports `0` removals. -/
theorem cleanupExpiredSessions_count_bug :
    (cleanupExpiredSessions [sessionA, sessionB] 500).2 = [] ∧
    (cleanupExpiredSessions [sessionA, sessionB] 500).1 = 0 := by
  constructor <;> rfl

/-! ## Claim C7 -/

/-- C7 (code bug): the account-number generator draws every one of its ten
digits uniformly from 0–9, so the leading digit can be `0`: the entropy
stream that yields 0 on each draw produces the account number
`"0000000000"`, contradicting the required non-zero leading digit (which the
repository's own test asserts via `/^[1-9]\d{9}$/`). -/
theorem generateSecureAccountNumber_leading_zero_bug :
    generateSecureAccountNumber (fun _ => 0) = some "0000000000" := by
  rfl

/-! ## Claim C9 -/

/-- C9: `invalidateSession` deletes the session and returns `true` when the
token is present; it returns `false` (with the store untouched) when the
token is unknown; and a second call on the same token returns `false` and
changes nothing, so logout is idempotent and total (the embedding is a total
function — no code path raises). -/
theorem invalidateSession_spec (store : List Session) :
    (∀ s ∈ store, (invalidateSession store s.token).1 = true ∧
      (invalidateSession (invalidateSession store s.token).2 s.token).1 = false ∧
      (invalidateSession (invalidateSession store s.token).2 s.token).2
        = (invalidateSession store s.token).2) ∧
    (∀ tok, (∀ s ∈ store, ¬ s.token = tok) →
      invalidateSession store tok = (false, store)) := by
  constructor
  · intro s hs
    have h1 : (store.find? (fun x => decide (x.token = s.token))).isSome := by
      rw [List.find?_isSome]
      exact ⟨s, hs, by simp⟩
    obtain ⟨x, hx⟩ := Option.isSome_iff_exists.mp h1
    have h2 : (deleteByToken store s.token).find?
        (fun x => decide (x.token = s.token)) = none := by
      rw [List.find?_eq_none]
      intro y hy
      have := (List.mem_filter.mp hy).2
      simpa using this
    refine ⟨by simp [invalidateSession, hx], ?_, ?_⟩
    · simp [invalidateSession, hx, h2]
    · simp [invalidateSession, hx, h2]
  · intro tok htok
    have h1 : store.find? (fun x => decide (x.token = tok)) = none := by
      rw [List.find?_eq_none]
      intro y hy
      simpa using htok y hy
    simp [invalidateSession, h1]

/-- C9 witness: on the one-session store, invalidating `"tokA"` succeeds and
a second invalidation returns `false`. -/
theorem invalidateSession_spec_witness :
    (invalidateSession [sessionA] "tokA").1 = true ∧
    (invalidateSession (invalidateSession [sessionA] "tokA").2 "tokA").1 = false := by
  have h := (invalidateSession_spec [sessionA]).1 sessionA (by simp)
  exact ⟨h.1, h.2.1⟩

/-! ## Claim C10 -/

/-- C10: the two public read paths disagree at the exact expiry boundary —
for a stored session read at `now = expiresAt`, `getSessionInfo` classifies
with the strict comparison `expiresAt < now` and reports `isExpired = false`,
while `validateSessionToken` classifies with `expiresAt <= now`, treats the
session as expired, deletes it, and returns none. -/
theorem getSessionInfo_validate_boundary (store : List Session) (s : Session)
    (hnd : (store.map Session.token).Nodup) (hmem : s ∈ store) :
    (∀ now, getSessionInfo store s.token now
        = some { id := s.id, userId := s.userId, createdAt := s.createdAt,
                 expiresAt := s.expiresAt, isExpired := decide (s.expiresAt < now) }) ∧
    getSessionInfo store s.token s.expiresAt
      = some { id := s.id, userId := s.userId, createdAt := s.createdAt,
               expiresAt := s.expiresAt, isExpired := false } ∧
    (validateSessionToken store s.token s.expiresAt).1 = none ∧
    s ∉ (validateSessionToken store s.token s.expiresAt).2 := by
  have hfind : store.find? (fun x => decide (x.token = s.token)) = some s :=
    find?_eq_some_of_nodup_key Session.token _ hnd hmem (by simp)
      (by intro x hx; simpa using hx)
  have hinfo : ∀ now, getSessionInfo store s.token now
      = some { id := s.id, userId := s.userId, createdAt := s.createdAt,
               expiresAt := s.expiresAt, isExpired := decide (s.expiresAt < now) } := by
    intro now
    simp [getSessionInfo, hfind]
  refine ⟨hinfo, ?_, ?_, ?_⟩
  · rw [hinfo s.expiresAt]
    simp
  · simp [validateSessionToken, hfind]
  · simp only [validateSessionToken, hfind, le_refl, if_pos]
    intro hcontra
    have := (List.mem_filter.mp hcontra).2
    simp at this

/-- C10 witness: the fixture session read exactly at its expiry instant. -/
theorem getSessionInfo_validate_boundary_witness :
    getSessionInfo [sessionA] "tokA" 100
      = some { id := 1, userId := 1, createdAt := 0, expiresAt := 100,
               isExpired := false } ∧
    (validateSessionToken [sessionA] "tokA" 100).1 = none := by
  have h := getSessionInfo_validate_boundary [sessionA] sessionA (by simp) (by simp)
  exact ⟨h.2.1, h.2.2.1⟩

/-! ## Claim C3 -/

/-- C3: for a stored session, `validateSessionToken` returns the session
exactly when `now < expiresAt` and returns none exactly when the record is
missing or `now >= expiresAt` (deleting the record in the expired case);
`getUserActiveSessions` returns exactly the owner's sessions with
`expiresAt > now`, the logical complement, so no session is simultaneously
active and expired; and a session expiring at `t0 + 7 days` validates to
none at exactly `t0 + 7d` and to the session at `t0 + 7d - 1ms`. -/
theorem validateSessionToken_spec (store : List Session)
    (hnd : (store.map Session.token).Nodup) :
    (∀ s ∈ store, ∀ now,
      (now < s.expiresAt → validateSessionToken store s.token now = (some s, store)) ∧
      (s.expiresAt ≤ now →
        (validateSessionToken store s.token now).1 = none ∧
        s ∉ (validateSessionToken store s.token now).2)) ∧
    (∀ tok now, (∀ s ∈ store, ¬ s.token = tok) →
      validateSessionToken store tok now = (none, store)) ∧
    (∀ uid now s, s ∈ getUserActiveSessions store uid now ↔
      s ∈ store ∧ s.userId = uid ∧ now < s.expiresAt) ∧
    (∀ s ∈ store, ∀ now,
      ¬ (s ∈ getUserActiveSessions store s.userId now ∧ s.expiresAt ≤ now)) ∧
    (∀ s ∈ store, ∀ t0, s.expiresAt = t0 + SESSION_EXPIRY_MS →
      (validateSessionToken store s.token (t0 + SESSION_EXPIRY_MS)).1 = none ∧
      (validateSessionToken store s.token (t0 + SESSION_EXPIRY_MS - 1)).1 = some s) := by
  have hfind : ∀ s ∈ store,
      store.find? (fun x => decide (x.token = s.token)) = some s := by
    intro s hs
    exact find?_eq_some_of_nodup_key Session.token _ hnd hs (by simp)
      (by intro x hx; simpa using hx)
  have hmain : ∀ s ∈ store, ∀ now,
      (now < s.expiresAt → validateSessionToken store s.token now = (some s, store)) ∧
      (s.expiresAt ≤ now →
        (validateSessionToken store s.token now).1 = none ∧
        s ∉ (validateSessionToken store s.token now).2) := by
    intro s hs now
    constructor
    · intro hlt
      simp [validateSessionToken, hfind s hs, Nat.not_le.mpr hlt]
    · intro hle
      refine ⟨by simp [validateSessionToken, hfind s hs, hle], ?_⟩
      simp only [validateSessionToken, hfind s hs, hle, if_pos]
      intro hcontra
      have := (List.mem_filter.mp hcontra).2
      simp at this
  refine ⟨hmain, ?_, ?_, ?_, ?_⟩
  · intro tok now htok
    have h1 : store.find? (fun x => decide (x.token = tok)) = none := by
      rw [List.find?_eq_none]
      intro y hy
      simpa using htok y hy
    simp [validateSessionToken, h1]
  · intro uid now s
    simp [getUserActiveSessions, List.mem_filter, and_assoc]
  · intro s hs now hcontra
    have h1 := (List.mem_filter.mp hcontra.1).2
    simp only [decide_eq_true_eq] at h1
    exact absurd hcontra.2 (Nat.not_le.mpr h1.2)
  · intro s hs t0 hexp
    refine ⟨((hmain s hs (t0 + SESSION_EXPIRY_MS)).2 (by omega)).1, ?_⟩
    have h2 := (hmain s hs (t0 + SESSION_EXPIRY_MS - 1)).1
      (by rw [hexp]; simp [SESSION_EXPIRY_MS])
    rw [h2]

/-- C3 witness: the fixture session (expiry 100) validates to itself at 99
and to none at 100, and is listed active at 99 but not at 100. -/
theorem validateSessionToken_spec_witness :
    validateSessionToken [sessionA] "tokA" 99 = (some sessionA, [sessionA]) ∧
    (validateSessionToken [sessionA] "tokA" 100).1 = none ∧
    (sessionA ∈ getUserActiveSessions [sessionA] 1 99 ↔
      sessionA ∈ [sessionA] ∧ sessionA.userId = 1 ∧ 99 < sessionA.expiresAt) := by
  have h := validateSessionToken_spec [sessionA] (by simp)
  exact ⟨(h.1 sessionA (by simp) 99).1 (by decide),
    ((h.1 sessionA (by simp) 100).2 (by decide)).1,
    h.2.2.1 1 99 sessionA⟩

/-! ## Claim C4 -/

/-- C4: `getTransactions` fails with `NOT_FOUND` when the account does not
exist or is not owned by the caller; otherwise every returned row carries the
requested `accountId` (the rows are filtered by account before ordering) and
the rows come sorted by `createdAt` descending, i.e. the `createdAt` values
are non-increasing. -/
theorem getTransactions_spec (db : BankDB) (accountId callerId : Nat) :
    ((∀ a ∈ db.accounts, ¬ (a.id = accountId ∧ a.userId = callerId)) →
      getTransactions db accountId callerId = .error .NOT_FOUND) ∧
    (∀ rows, getTransactions db accountId callerId = .ok rows →
      (∀ r ∈ rows, r.accountId = accountId) ∧
      List.Sorted (fun x y : Nat => y ≤ x) (rows.map TransactionRow.createdAt)) := by
  constructor
  · intro hnone
    have h1 : db.accounts.find?
        (fun a => decide (a.id = accountId ∧ a.userId = callerId)) = none := by
      rw [List.find?_eq_none]
      intro y hy
      simpa using hnone y hy
    rw [getTransactions, h1]
  · intro rows hok
    rcases h2 : db.accounts.find?
        (fun a => decide (a.id = accountId ∧ a.userId = callerId)) with _ | a
    · rw [getTransactions, h2] at hok
      cases hok
    · rw [getTransactions, h2] at hok
      simp only [Except.ok.injEq] at hok
      subst hok
      constructor
      · intro r hr
        rw [List.mem_insertionSort] at hr
        obtain ⟨t, ht, rfl⟩ := List.mem_map.mp hr
        exact of_decide_eq_true (List.mem_filter.mp ht).2
      · exact List.Pairwise.map TransactionRow.createdAt (fun a b h => h)
          (List.sorted_insertionSort rowCreatedAtGE _)

/-- C4 witness: on the fixture store the listing of account 1 succeeds with
its two rows newest-first, and an unknown account yields `NOT_FOUND`. -/
theorem getTransactions_spec_witness :
    ((∀ r ∈ ([rowA2, rowA1] : List TransactionRow), r.accountId = 1) ∧
      List.Sorted (fun x y : Nat => y ≤ x)
        (([rowA2, rowA1] : List TransactionRow).map TransactionRow.createdAt)) ∧
    getTransactions bankA 2 7 = .error .NOT_FOUND := by
  refine ⟨(getTransactions_spec bankA 1 7).2 [rowA2, rowA1] (by rfl), ?_⟩
  exact (getTransactions_spec bankA 2 7).1 (by decide)

/-! ## Claim C1 -/

/-- C1: when the preconditions hold (positive amount, existing account owned
by the caller with status `active`), `fundAccount` inside its atomic unit
inserts exactly one `deposit`/`completed` transaction of the given amount,
increments exactly that account's balance by the amount through one
server-side arithmetic update, and answers `{transaction, newBalance}` with
`newBalance` the balance re-read inside the unit (the old balance plus the
amount); when any step inside the unit fails, the unit rolls back and the
store — ledger and balances — is exactly as before the call. -/
theorem fundAccount_spec (db : BankDB) (accountId : Nat) (amount : Int)
    (sourceType : String) (callerId : Nat) (now : Nat) (acc : Account)
    (hnd : (db.accounts.map Account.id).Nodup)
    (hmem : acc ∈ db.accounts) (hid : acc.id = accountId)
    (hown : acc.userId = callerId) (hstatus : acc.status = "active")
    (hpos : 0 < amount) :
    (∃ newTx : Transaction,
      newTx.type = "deposit" ∧ newTx.status = "completed" ∧ newTx.amount = amount ∧
      (fundAccount db accountId amount sourceType callerId now false).2.transactions
        = db.transactions ++ [newTx]) ∧
    (fundAccount db accountId amount sourceType callerId now false).2.accounts
      = db.accounts.map (fun a =>
          if a.id = accountId then { a with balance := a.balance + amount } else a) ∧
    (∃ rb, (fundAccount db accountId amount sourceType callerId now false).1
      = .ok (rb, some (acc.balance + amount))) ∧
    fundAccount db accountId amount sourceType callerId now true
      = (.error .INTERNAL_SERVER_ERROR, db) := by
  have hfind : db.accounts.find?
      (fun a => decide (a.id = accountId ∧ a.userId = callerId)) = some acc := by
    apply find?_eq_some_of_nodup_key Account.id _ hnd hmem
    · simp [hid, hown]
    · intro x hx
      simp only [decide_eq_true_eq] at hx
      simp [hx.1, hid]
  have hndmap : ((db.accounts.map (fun a =>
      if a.id = accountId then { a with balance := a.balance + amount } else a)).map
        Account.id).Nodup := by
    rw [List.map_map]
    have hcomp : (Account.id ∘ fun a =>
        if a.id = accountId then { a with balance := a.balance + amount } else a)
        = Account.id := by
      funext a
      by_cases h : a.id = accountId <;> simp [h]
    rw [hcomp]
    exact hnd
  have hfind2 : (db.accounts.map (fun a =>
      if a.id = accountId then { a with balance := a.balance + amount } else a)).find?
        (fun a => decide (a.id = accountId))
      = some { acc with balance := acc.balance + amount } := by
    apply find?_eq_some_of_nodup_key Account.id _ hndmap
    · exact List.mem_map.mpr ⟨acc, hmem, by simp [hid]⟩
    · simp [hid]
    · intro x hx
      simp only [decide_eq_true_eq] at hx
      simp [hx, hid]
  have heqF : fundAccount db accountId amount sourceType callerId now false
      = (.ok ((List.insertionSort txCreatedAtGE
            ((db.transactions ++ [depositTx db accountId amount sourceType now]).filter
              (fun t => decide (t.accountId = accountId)))).head?,
          some (acc.balance + amount)),
        { db with
            accounts := db.accounts.map (fun a =>
              if a.id = accountId then { a with balance := a.balance + amount } else a),
            transactions := db.transactions
              ++ [depositTx db accountId amount sourceType now],
            nextTxId := db.nextTxId + 1 }) := by
    unfold fundAccount
    rw [if_neg (not_le.mpr hpos), hfind]
    simp only [hstatus, hfind2, depositTx]
    simp
  have heqT : fundAccount db accountId amount sourceType callerId now true
      = (.error .INTERNAL_SERVER_ERROR, db) := by
    unfold fundAccount
    rw [if_neg (not_le.mpr hpos), hfind]
    simp only [hstatus]
    simp
  refine ⟨⟨depositTx db accountId amount sourceType now,
      rfl, rfl, rfl, by rw [heqF]⟩, by rw [heqF], ⟨_, by rw [heqF]⟩, heqT⟩

/-- C1 witness: funding fixture account 1 (balance 80) with 50 as user 7
appends one completed deposit of 50, sets the balance to 130, reports the
new balance 130 read inside the unit, and the injected-failure run leaves
the store untouched. -/
theorem fundAccount_spec_witness :
    (∃ newTx : Transaction,
      newTx.type = "deposit" ∧ newTx.status = "completed" ∧ newTx.amount = 50 ∧
      (fundAccount bankA 1 50 "card" 7 300 false).2.transactions
        = bankA.transactions ++ [newTx]) ∧
    (fundAccount bankA 1 50 "card" 7 300 false).2.accounts
      = bankA.accounts.map (fun a =>
          if a.id = 1 then { a with balance := a.balance + 50 } else a) ∧
    (∃ rb, (fundAccount bankA 1 50 "card" 7 300 false).1
      = .ok (rb, some (accountA.balance + 50))) ∧
    fundAccount bankA 1 50 "card" 7 300 true
      = (.error .INTERNAL_SERVER_ERROR, bankA) :=
  fundAccount_spec bankA 1 50 "card" 7 300 accountA (by decide) (by decide)
    (by decide) (by decide) (by decide) (by decide)

/-! ## Claim C8 -/

/-- C8: `createAccount` rejects with `CONFLICT` — leaving the store
unchanged — whenever the owner already has an account of the requested type;
and when the post-insert re-read fails after a successful insert, it
surfaces an explicit `INTERNAL_SERVER_ERROR` to the caller instead of
returning any fabricated default account value. -/
theorem createAccount_spec (db : BankDB) (userId : Nat) (accountType : String)
    (entropy : Nat → Nat) (fuel : Nat) :
    (∀ acc ∈ db.accounts, acc.userId = userId → acc.accountType = accountType →
      ∀ rrf, createAccount db userId accountType entropy fuel rrf
        = (.error .CONFLICT, db)) ∧
    ((∀ acc ∈ db.accounts, ¬ (acc.userId = userId ∧ acc.accountType = accountType)) →
      (createAccount db userId accountType entropy fuel true).1
        = .error .INTERNAL_SERVER_ERROR) := by
  constructor
  · intro acc hmem hu ht rrf
    have h1 : (db.accounts.find?
        (fun a => decide (a.userId = userId ∧ a.accountType = accountType))).isSome := by
      rw [List.find?_isSome]
      exact ⟨acc, hmem, by simp [hu, ht]⟩
    obtain ⟨x, hx⟩ := Option.isSome_iff_exists.mp h1
    rw [createAccount, hx]
  · intro hnone
    have h1 : db.accounts.find?
        (fun a => decide (a.userId = userId ∧ a.accountType = accountType)) = none := by
      rw [List.find?_eq_none]
      intro y hy
      simpa using hnone y hy
    rw [createAccount, h1]
    rcases h2 : findUniqueAccountNumber db entropy fuel with _ | num
    · rfl
    · rfl

/-- C8 witness: user 7 already has a checking account in the fixture store,
so a second checking account is rejected with `CONFLICT` and the store is
unchanged; creating a savings account whose post-insert re-read fails
surfaces `INTERNAL_SERVER_ERROR`. -/
theorem createAccount_spec_witness :
    createAccount bankA 7 "checking" (fun _ => 0) 1 false
      = (.error .CONFLICT, bankA) ∧
    (createAccount bankA 7 "savings" (fun _ => 0) 1 true).1
      = .error .INTERNAL_SERVER_ERROR := by
  refine ⟨(createAccount_spec bankA 7 "checking" (fun _ => 0) 1).1 accountA
      (by decide) (by decide) (by decide) false, ?_⟩
  exact (createAccount_spec bankA 7 "savings" (fun _ => 0) 1).2 (by decide)

/-! ## Claim C2 -/

/-- Inserting a fresh account (balance 0, fresh id) preserves the ledger
invariant: no existing ledger row can reference the fresh id. -/
theorem ledgerConsistent_insert (db : BankDB) (hc : ledgerConsistent db)
    (num ty : String) (userId : Nat) :
    ledgerConsistent { db with
      accounts := db.accounts ++ [newAccountRow db userId num ty],
      nextAccountId := db.nextAccountId + 1 } := by
  obtain ⟨hbal, hids, hrows⟩ := hc
  refine ⟨?_, ?_, ?_⟩
  · intro a ha
    rcases List.mem_append.mp ha with h | h
    · exact hbal a h
    · rcases List.mem_singleton.mp h with rfl
      have hempty : (db.transactions.filter
          (fun t => decide (t.accountId = db.nextAccountId))) = [] := by
        rw [List.filter_eq_nil_iff]
        intro t ht
        obtain ⟨a, hmem, hid⟩ := hrows t ht
        have := hids a hmem
        simp only [decide_eq_true_eq]
        omega
      show (0 : Int) = _
      unfold txSum
      simp [newAccountRow, hempty]
  · intro a ha
    rcases List.mem_append.mp ha with h | h
    · exact Nat.lt_succ_of_lt (hids a h)
    · rcases List.mem_singleton.mp h with rfl
      exact Nat.lt_succ_self _
  · intro t ht
    obtain ⟨a, hmem, hid⟩ := hrows t ht
    exact ⟨a, List.mem_append_left _ hmem, hid⟩

/-- The store `createAccount` leaves behind: either unchanged, or with
exactly the fresh account appended. -/
theorem createAccount_snd (db : BankDB) (u : Nat) (ty : String) (e : Nat → Nat)
    (f : Nat) (r : Bool) :
    (createAccount db u ty e f r).2 = db ∨
    ∃ num, (createAccount db u ty e f r).2 = { db with
      accounts := db.accounts ++ [newAccountRow db u num ty],
      nextAccountId := db.nextAccountId + 1 } := by
  unfold createAccount
  rcases h1 : db.accounts.find?
      (fun a => decide (a.userId = u ∧ a.accountType = ty)) with _ | x
  · rw [h1]
    rcases h2 : findUniqueAccountNumber db e f with _ | num
    · left; rfl
    · right
      refine ⟨num, ?_⟩
      rcases r with _ | _
      · rcases h3 : (db.accounts ++ [newAccountRow db u num ty]).find?
            (fun a => decide (a.accountNumber = num)) with _ | acc <;>
          simp [h3]
      · simp
  · rw [h1]
    left; rfl

/-- Appending the deposit row shifts exactly the funded account's ledger
sum by the amount. -/
theorem txSum_after_deposit (db : BankDB) (accountId : Nat) (amount : Int)
    (sourceType : String) (now : Nat) (A : List Account) (x : Nat) :
    txSum ({ db with
        accounts := A,
        transactions := db.transactions ++ [depositTx db accountId amount sourceType now],
        nextTxId := db.nextTxId + 1 }) x
      = txSum db x + (if x = accountId then amount else 0) := by
  unfold txSum
  simp only [List.filter_append, List.map_append, List.sum_append]
  by_cases h : x = accountId
  · subst h
    simp [depositTx, signedAmount]
  · have h2 : ¬ accountId = x := fun hc => h hc.symm
    simp [depositTx, signedAmount, h, h2]

/-- Funding an existing account preserves the ledger invariant. -/
theorem ledgerConsistent_fund (db : BankDB) (hc : ledgerConsistent db)
    (accountId : Nat) (amount : Int) (sourceType : String) (now : Nat)
    (hex : ∃ a ∈ db.accounts, a.id = accountId) :
    ledgerConsistent { db with
      accounts := db.accounts.map (fun a =>
        if a.id = accountId then { a with balance := a.balance + amount } else a),
      transactions := db.transactions ++ [depositTx db accountId amount sourceType now],
      nextTxId := db.nextTxId + 1 } := by
  obtain ⟨hbal, hids, hrows⟩ := hc
  refine ⟨?_, ?_, ?_⟩
  · intro a' ha'
    obtain ⟨a, hmem, rfl⟩ := List.mem_map.mp ha'
    rw [txSum_after_deposit]
    by_cases h : a.id = accountId
    · simp only [h, if_pos rfl, if_true]
      simp [h, hbal a hmem]
    · simp [h, hbal a hmem]
  · intro a' ha'
    obtain ⟨a, hmem, rfl⟩ := List.mem_map.mp ha'
    have hlt := hids a hmem
    by_cases h : a.id = accountId <;> simp [h] <;> omega
  · intro t ht
    rcases List.mem_append.mp ht with h | h
    · obtain ⟨a, hmem, hid⟩ := hrows t h
      refine ⟨if a.id = accountId then { a with balance := a.balance + amount } else a,
        List.mem_map.mpr ⟨a, hmem, rfl⟩, ?_⟩
      by_cases hcase : a.id = accountId
      · rw [if_pos hcase]
        exact hid
      · rw [if_neg hcase]
        exact hid
    · rcases List.mem_singleton.mp h with rfl
      obtain ⟨a, hmem, hid⟩ := hex
      refine ⟨if a.id = accountId then { a with balance := a.balance + amount } else a,
        List.mem_map.mpr ⟨a, hmem, rfl⟩, ?_⟩
      by_cases hcase : a.id = accountId
      · rw [if_pos hcase]
        exact hid
      · exact absurd hid hcase

/-- The store `fundAccount` leaves behind: either unchanged, or — when the
owned account was found and everything succeeded — with the deposit row
appended and that account's balance incremented. -/
theorem fundAccount_snd (db : BankDB) (accountId : Nat) (amount : Int)
    (sourceType : String) (callerId : Nat) (now : Nat) (uf : Bool) :
    (fundAccount db accountId amount sourceType callerId now uf).2 = db ∨
    ((∃ a ∈ db.accounts, a.id = accountId) ∧
      (fundAccount db accountId amount sourceType callerId now uf).2 = { db with
        accounts := db.accounts.map (fun a =>
          if a.id = accountId then { a with balance := a.balance + amount } else a),
        transactions := db.transactions
          ++ [depositTx db accountId amount sourceType now],
        nextTxId := db.nextTxId + 1 }) := by
  unfold fundAccount
  by_cases h0 : amount ≤ 0
  · left
    rw [if_pos h0]
  · rw [if_neg h0]
    rcases h1 : db.accounts.find?
        (fun a => decide (a.id = accountId ∧ a.userId = callerId)) with _ | acc
    · rw [h1]
      left; rfl
    · simp only [h1]
      have hmem := List.mem_of_find?_eq_some h1
      have hpred := List.find?_some h1
      simp only [decide_eq_true_eq] at hpred
      by_cases h2 : ¬ acc.status = "active"
      · left
        rw [if_pos h2]
      · rw [if_neg h2]
        rcases uf with _ | _
        · right
          exact ⟨⟨acc, hmem, hpred.1⟩, by simp [depositTx]⟩
        · left; rfl

/-- Every single core operation preserves the ledger invariant. -/
theorem applyOp_preserves (db : BankDB) (op : BankOp) (hc : ledgerConsistent db) :
    ledgerConsistent (applyOp db op) := by
  cases op with
  | create u ty e f r =>
    rcases createAccount_snd db u ty e f r with h | ⟨num, h⟩
    · rw [applyOp, h]; exact hc
    · rw [applyOp, h]; exact ledgerConsistent_insert db hc num ty u
  | fund a amt s c n u =>
    rcases fundAccount_snd db a amt s c n u with h | ⟨hex, h⟩
    · rw [applyOp, h]; exact hc
    · rw [applyOp, h]; exact ledgerConsistent_fund db hc a amt s n hex

/-- The invariant holds along any operation sequence. -/
theorem runOps_preserves (ops : List BankOp) (db : BankDB)
    (hc : ledgerConsistent db) : ledgerConsistent (runOps ops db) := by
  induction ops generalizing db with
  | nil => exact hc
  | cons op rest ih => exact ih (applyOp db op) (applyOp_preserves db op hc)

/-- C2: after any sequence of `createAccount` and `fundAccount` operations
starting from the empty store, every stored `account.balance` equals the
sum of the signed amounts of the transactions of that account — accounts are
created with balance 0 and no ledger rows, and each funding appends one
deposit row of amount `a` while adding exactly `a` to the balance, so the
invariant is preserved by every operation of the core. -/
theorem balance_matches_ledger (ops : List BankOp) :
    balanceMatchesLedger (runOps ops emptyDB) :=
  (runOps_preserves ops emptyDB
    ⟨fun a ha => absurd ha (List.not_mem_nil a),
     fun a ha => absurd ha (List.not_mem_nil a),
     fun t ht => absurd ht (List.not_mem_nil t)⟩).1

/-! ## Claim C5 -/

/-- A duplicate-free list all of whose elements equal one constant has at
most one element. -/
theorem length_le_one_of_nodup_const {β : Type} {l : List β} {c : β}
    (hnd : l.Nodup) (h : ∀ x ∈ l, x = c) : l.length ≤ 1 := by
  match l with
  | [] => simp
  | [x] => simp
  | x :: y :: rest =>
    exfalso
    have hx := h x (by simp)
    have hy := h y (by simp)
    rw [List.nodup_cons] at hnd
    exact hnd.1 (by simp [hx, hy])

/-- Any two members of a list of length at most one coincide. -/
theorem eq_of_mem_of_length_le_one {α : Type} {l : List α} (h : l.length ≤ 1)
    {a b : α} (ha : a ∈ l) (hb : b ∈ l) : a = b := by
  match l with
  | [] => cases ha
  | [x] =>
    rw [List.mem_singleton] at ha hb
    rw [ha, hb]
  | x :: y :: rest => simp at h

/-- Core of the over-limit analysis of `enforceSessionLimit`, stated over
abstract stages: `us` the owner's sessions, `fl` those not holding
`keepToken`, `sorted` a `createdAt`-ascending rearrangement of `fl`.  The
eviction list is the oldest `us.length - limit` entries of `sorted`, and the
survivors are the sessions whose token is not evicted. -/
theorem enforce_over_core (store us fl sorted : List Session) (uid : Nat)
    (keep : String) (hnd : (store.map Session.token).Nodup)
    (hus : us = store.filter (fun s => decide (s.userId = uid)))
    (hfl : fl = us.filter (fun s => decide (¬ s.token = keep)))
    (hperm : sorted.Perm fl)
    (hsorted : List.Sorted createdAtLE sorted)
    (hgt : MAX_SESSIONS_PER_USER < us.length) :
    (sorted.take (us.length - MAX_SESSIONS_PER_USER)).length = us.length - MAX_SESSIONS_PER_USER ∧
    (((store.filter (fun s => decide (∀ d ∈ (sorted.take (us.length - MAX_SESSIONS_PER_USER)), ¬ s.token = d.token)))).filter (fun s => decide (s.userId = uid))).length
      = MAX_SESSIONS_PER_USER ∧
    (∀ s ∈ store, s.token = keep → s ∈ (store.filter (fun s => decide (∀ d ∈ (sorted.take (us.length - MAX_SESSIONS_PER_USER)), ¬ s.token = d.token)))) ∧
    (∀ s ∈ (store.filter (fun s => decide (∀ d ∈ (sorted.take (us.length - MAX_SESSIONS_PER_USER)), ¬ s.token = d.token))), s ∈ store) ∧
    (∀ d ∈ store, d ∉ (store.filter (fun s => decide (∀ d ∈ (sorted.take (us.length - MAX_SESSIONS_PER_USER)), ¬ s.token = d.token))) → d.userId = uid ∧ ¬ d.token = keep) ∧
    (∀ d ∈ store, d ∉ (store.filter (fun s => decide (∀ d ∈ (sorted.take (us.length - MAX_SESSIONS_PER_USER)), ¬ s.token = d.token))) → ∀ s ∈ (store.filter (fun s => decide (∀ d ∈ (sorted.take (us.length - MAX_SESSIONS_PER_USER)), ¬ s.token = d.token))), s.userId = uid →
      ¬ s.token = keep → d.createdAt ≤ s.createdAt) ∧
    ((∃ k ∈ store, k.userId = uid ∧ k.token = keep) →
      ∀ s ∈ (store.filter (fun s => decide (∀ d ∈ (sorted.take (us.length - MAX_SESSIONS_PER_USER)), ¬ s.token = d.token))), s.userId = uid → s.token = keep) := by
  have hM : MAX_SESSIONS_PER_USER = 1 := rfl
  have husnd : (us.map Session.token).Nodup := by
    rw [hus]
    exact hnd.sublist ((List.filter_sublist store).map Session.token)
  have hflnd : (fl.map Session.token).Nodup := by
    rw [hfl]
    exact husnd.sublist ((List.filter_sublist us).map Session.token)
  have hsortnd : (sorted.map Session.token).Nodup :=
    ((hperm.map Session.token).nodup_iff).mpr hflnd
  have htdsub : List.Sublist (sorted.take (us.length - MAX_SESSIONS_PER_USER)) sorted := List.take_sublist _ _
  have htdnd : ((sorted.take (us.length - MAX_SESSIONS_PER_USER)).map Session.token).Nodup :=
    hsortnd.sublist (htdsub.map Session.token)
  have hmem_td : ∀ d ∈ (sorted.take (us.length - MAX_SESSIONS_PER_USER)), d ∈ us ∧ ¬ d.token = keep := by
    intro d hd
    have h2 : d ∈ fl := hperm.subset (htdsub.subset hd)
    rw [hfl] at h2
    rcases List.mem_filter.mp h2 with ⟨h3, h4⟩
    exact ⟨h3, by simpa using h4⟩
  have hmem_us : ∀ x ∈ us, x ∈ store ∧ x.userId = uid := by
    intro x hx
    rw [hus] at hx
    rcases List.mem_filter.mp hx with ⟨h1, h2⟩
    exact ⟨h1, of_decide_eq_true h2⟩
  have hkc : (us.filter (fun s => decide (s.token = keep))).length ≤ 1 := by
    have h1 : ((us.filter (fun s => decide (s.token = keep))).map Session.token).Nodup :=
      husnd.sublist ((List.filter_sublist us).map Session.token)
    have h2 : ∀ x ∈ (us.filter (fun s => decide (s.token = keep))).map Session.token,
        x = keep := by
      intro x hx
      obtain ⟨s, hs, rfl⟩ := List.mem_map.mp hx
      exact of_decide_eq_true (List.mem_filter.mp hs).2
    simpa using length_le_one_of_nodup_const h1 h2
  have hflen : us.length
      = (us.filter (fun s => decide (s.token = keep))).length + fl.length := by
    rw [hfl, show us.filter (fun s => decide (¬ s.token = keep))
        = us.filter (fun s => !(decide (s.token = keep))) from
      List.filter_congr (fun x _ => by simp)]
    exact List.length_eq_length_filter_add _
  have hslen : sorted.length = fl.length := hperm.length_eq
  have htdlen : (sorted.take (us.length - MAX_SESSIONS_PER_USER)).length = us.length - MAX_SESSIONS_PER_USER := by
    rw [List.length_take, hslen]
    rw [hM] at hgt ⊢
    omega
  have hkeep_surv : ∀ s ∈ store, s.token = keep → s ∈ (store.filter (fun s => decide (∀ d ∈ (sorted.take (us.length - MAX_SESSIONS_PER_USER)), ¬ s.token = d.token))) := by
    intro s hs hk
    refine List.mem_filter.mpr ⟨hs, ?_⟩
    simp only [decide_eq_true_eq]
    intro d hd hcontra
    exact (hmem_td d hd).2 (hk ▸ hcontra).symm
  have hdel_mem : ∀ d ∈ store, d ∉ (store.filter (fun s => decide (∀ d ∈ (sorted.take (us.length - MAX_SESSIONS_PER_USER)), ¬ s.token = d.token))) → d ∈ (sorted.take (us.length - MAX_SESSIONS_PER_USER)) := by
    intro d hd hns
    by_contra hnd2
    apply hns
    refine List.mem_filter.mpr ⟨hd, ?_⟩
    simp only [decide_eq_true_eq]
    intro d2 hd2 heq2
    have hd2s : d2 ∈ store := (hmem_us d2 (hmem_td d2 hd2).1).1
    have hdd : d = d2 := List.inj_on_of_nodup_map hnd hd hd2s heq2
    exact hnd2 (hdd ▸ hd2)
  have hsurvcount : (((store.filter (fun s => decide (∀ d ∈ (sorted.take (us.length - MAX_SESSIONS_PER_USER)), ¬ s.token = d.token)))).filter (fun s => decide (s.userId = uid))).length
      = MAX_SESSIONS_PER_USER := by
    have E := length_filter_forall_ne Session.token us (sorted.take (us.length - MAX_SESSIONS_PER_USER)) husnd htdnd
      (fun d hd => (hmem_td d hd).1)
    have hcomm : ((store.filter (fun s => decide (∀ d ∈ (sorted.take (us.length - MAX_SESSIONS_PER_USER)), ¬ s.token = d.token)))).filter (fun s => decide (s.userId = uid))
        = us.filter (fun s => decide (∀ d ∈ (sorted.take (us.length - MAX_SESSIONS_PER_USER)), ¬ s.token = d.token)) := by
      rw [hus]
      exact List.filter_comm _ _ store
    rw [hcomm, E, htdlen]
    rw [hM] at hgt ⊢
    omega
  refine ⟨htdlen, hsurvcount, hkeep_surv, ?_, ?_, ?_, ?_⟩
  · intro s hs
    exact List.mem_of_mem_filter hs
  · intro d hd hns
    have hdt := hdel_mem d hd hns
    rcases hmem_td d hdt with ⟨h1, h2⟩
    exact ⟨(hmem_us d h1).2, h2⟩
  · intro d hd hns s hsv huid hk
    have hdtd := hdel_mem d hd hns
    have hsstore : s ∈ store := List.mem_of_mem_filter hsv
    have hsus : s ∈ us := by
      rw [hus]
      exact List.mem_filter.mpr ⟨hsstore, by simp [huid]⟩
    have hsfl : s ∈ fl := by
      rw [hfl]
      exact List.mem_filter.mpr ⟨hsus, by simpa using hk⟩
    have hssorted : s ∈ sorted := hperm.symm.subset hsfl
    have hsnotdel : s ∉ (sorted.take (us.length - MAX_SESSIONS_PER_USER)) := by
      intro hcontra
      have h5 := (List.mem_filter.mp hsv).2
      simp only [decide_eq_true_eq] at h5
      exact h5 s hcontra rfl
    have hsdrop : s ∈ sorted.drop (us.length - MAX_SESSIONS_PER_USER) := by
      have h6 : s ∈ (sorted.take (us.length - MAX_SESSIONS_PER_USER)) ++ sorted.drop (us.length - MAX_SESSIONS_PER_USER) := by
        rw [List.take_append_drop]
        exact hssorted
      rcases List.mem_append.mp h6 with h | h
      · exact absurd h hsnotdel
      · exact h
    exact hsorted.rel_of_mem_take_of_mem_drop hdtd hsdrop
  · rintro ⟨k, hk, hkuid, hktok⟩ s hsv huid
    by_contra hk2
    have hsstore : s ∈ store := List.mem_of_mem_filter hsv
    have hsus : s ∈ us := by
      rw [hus]
      exact List.mem_filter.mpr ⟨hsstore, by simp [huid]⟩
    have hsfl : s ∈ fl := by
      rw [hfl]
      exact List.mem_filter.mpr ⟨hsus, by simpa using hk2⟩
    have hssorted : s ∈ sorted := hperm.symm.subset hsfl
    have hk1 : 1 ≤ (us.filter (fun s => decide (s.token = keep))).length := by
      have hkus : k ∈ us := by
        rw [hus]
        exact List.mem_filter.mpr ⟨hk, by simp [hkuid]⟩
      exact List.length_pos_of_mem
        (List.mem_filter.mpr ⟨hkus, by simp [hktok]⟩)
    have htdall : (sorted.take (us.length - MAX_SESSIONS_PER_USER)) = sorted := by
      apply List.take_of_length_le
      rw [hslen]
      rw [hM] at hgt ⊢
      omega
    have hstd : s ∈ (sorted.take (us.length - MAX_SESSIONS_PER_USER)) := by
      rw [htdall]
      exact hssorted
    have h5 := (List.mem_filter.mp hsv).2
    simp only [decide_eq_true_eq] at h5
    exact h5 s hstd rfl

/-- Behaviour of `enforceSessionLimit` above the limit: it reports
`count - limit` evictions, brings the owner's count down to the limit,
keeps every session holding `keepToken`, only evicts sessions of the owner
that do not hold `keepToken`, evicts oldest-first, and — when the owner does
hold a `keepToken` session — leaves only `keepToken` sessions of the owner
behind. -/
theorem enforceSessionLimit_over (store : List Session) (uid : Nat) (keep : String)
    (hnd : (store.map Session.token).Nodup)
    (hgt : MAX_SESSIONS_PER_USER < (store.filter (fun s => decide (s.userId = uid))).length) :
    (enforceSessionLimit store uid keep).1
      = (store.filter (fun s => decide (s.userId = uid))).length - MAX_SESSIONS_PER_USER ∧
    ((enforceSessionLimit store uid keep).2.filter
        (fun s => decide (s.userId = uid))).length = MAX_SESSIONS_PER_USER ∧
    (∀ s ∈ store, s.token = keep → s ∈ (enforceSessionLimit store uid keep).2) ∧
    (∀ s ∈ (enforceSessionLimit store uid keep).2, s ∈ store) ∧
    (∀ d ∈ store, d ∉ (enforceSessionLimit store uid keep).2 →
      d.userId = uid ∧ ¬ d.token = keep) ∧
    (∀ d ∈ store, d ∉ (enforceSessionLimit store uid keep).2 →
      ∀ s ∈ (enforceSessionLimit store uid keep).2, s.userId = uid →
        ¬ s.token = keep → d.createdAt ≤ s.createdAt) ∧
    ((∃ k ∈ store, k.userId = uid ∧ k.token = keep) →
      ∀ s ∈ (enforceSessionLimit store uid keep).2, s.userId = uid →
        s.token = keep) := by
  have heq : enforceSessionLimit store uid keep
      = (((List.insertionSort createdAtLE ((store.filter (fun s => decide (s.userId = uid))).filter (fun s => decide (¬ s.token = keep)))).take ((store.filter (fun s => decide (s.userId = uid))).length - MAX_SESSIONS_PER_USER)).length, (store.filter (fun s => decide (∀ d ∈ ((List.insertionSort createdAtLE ((store.filter (fun s => decide (s.userId = uid))).filter (fun s => decide (¬ s.token = keep)))).take ((store.filter (fun s => decide (s.userId = uid))).length - MAX_SESSIONS_PER_USER)), ¬ s.token = d.token)))) := by
    simp only [enforceSessionLimit]
    rw [if_neg (not_le.mpr hgt)]
  rw [heq]
  exact enforce_over_core store (store.filter (fun s => decide (s.userId = uid))) ((store.filter (fun s => decide (s.userId = uid))).filter (fun s => decide (¬ s.token = keep))) (List.insertionSort createdAtLE ((store.filter (fun s => decide (s.userId = uid))).filter (fun s => decide (¬ s.token = keep)))) uid keep hnd rfl rfl
    (List.perm_insertionSort createdAtLE ((store.filter (fun s => decide (s.userId = uid))).filter (fun s => decide (¬ s.token = keep))))
    (List.sorted_insertionSort createdAtLE ((store.filter (fun s => decide (s.userId = uid))).filter (fun s => decide (¬ s.token = keep)))) hgt

/-- C5: with the configured limit, `enforceSessionLimit(owner, keepToken)`
is a no-op returning 0 when the owner's session count is within the limit;
otherwise it deletes the owner's oldest sessions first (by `createdAt`),
never the `keepToken` session, until the owner's count equals the limit,
and returns the number deleted; and with limit 1, when the owner holds a
`keepToken` session, every surviving session of the owner is that session —
so at most one non-expired session remains and it is `keepToken`'s (none at
all when that session was already expired). -/
theorem enforceSessionLimit_spec (store : List Session) (uid : Nat) (keep : String)
    (hnd : (store.map Session.token).Nodup) :
    ((store.filter (fun s => decide (s.userId = uid))).length
        ≤ MAX_SESSIONS_PER_USER →
      enforceSessionLimit store uid keep = (0, store)) ∧
    (MAX_SESSIONS_PER_USER
        < (store.filter (fun s => decide (s.userId = uid))).length →
      (enforceSessionLimit store uid keep).1
        = (store.filter (fun s => decide (s.userId = uid))).length
          - MAX_SESSIONS_PER_USER ∧
      ((enforceSessionLimit store uid keep).2.filter
          (fun s => decide (s.userId = uid))).length = MAX_SESSIONS_PER_USER ∧
      (∀ s ∈ store, s.token = keep → s ∈ (enforceSessionLimit store uid keep).2) ∧
      (∀ d ∈ store, d ∉ (enforceSessionLimit store uid keep).2 →
        d.userId = uid ∧ ¬ d.token = keep) ∧
      (∀ d ∈ store, d ∉ (enforceSessionLimit store uid keep).2 →
        ∀ s ∈ (enforceSessionLimit store uid keep).2, s.userId = uid →
          ¬ s.token = keep → d.createdAt ≤ s.createdAt)) ∧
    (∀ k ∈ store, k.userId = uid → k.token = keep →
      (∀ s ∈ (enforceSessionLimit store uid keep).2, s.userId = uid → s = k) ∧
      (∀ now s, s ∈ getUserActiveSessions (enforceSessionLimit store uid keep).2
          uid now → s = k ∧ now < k.expiresAt)) := by
  have hM : MAX_SESSIONS_PER_USER = 1 := rfl
  refine ⟨?_, ?_, ?_⟩
  · intro hle
    simp only [enforceSessionLimit]
    rw [if_pos hle]
  · intro hgt
    obtain ⟨c1, c2, c3, c4, c5, c6, c7⟩ :=
      enforceSessionLimit_over store uid keep hnd hgt
    exact ⟨c1, c2, c3, c5, c6⟩
  · intro k hk hkuid hktok
    by_cases hle : (store.filter (fun s => decide (s.userId = uid))).length
        ≤ MAX_SESSIONS_PER_USER
    · have heq0 : enforceSessionLimit store uid keep = (0, store) := by
        simp only [enforceSessionLimit]
        rw [if_pos hle]
      rw [heq0]
      have hlen1 : (store.filter (fun s => decide (s.userId = uid))).length ≤ 1 := by
        rw [hM] at hle
        exact hle
      have hone : ∀ s ∈ store, s.userId = uid → s = k := by
        intro s hs hsu
        have hsus : s ∈ store.filter (fun s => decide (s.userId = uid)) :=
          List.mem_filter.mpr ⟨hs, by simp [hsu]⟩
        have hkus : k ∈ store.filter (fun s => decide (s.userId = uid)) :=
          List.mem_filter.mpr ⟨hk, by simp [hkuid]⟩
        exact eq_of_mem_of_length_le_one hlen1 hsus hkus
      refine ⟨hone, ?_⟩
      intro now s hs
      rcases List.mem_filter.mp hs with ⟨hs1, hs2⟩
      simp only [decide_eq_true_eq] at hs2
      have h8 := hone s hs1 hs2.1
      exact ⟨h8, h8 ▸ hs2.2⟩
    · push_neg at hle
      obtain ⟨c1, c2, c3, c4, c5, c6, c7⟩ :=
        enforceSessionLimit_over store uid keep hnd hle
      have hone : ∀ s ∈ (enforceSessionLimit store uid keep).2,
          s.userId = uid → s = k := by
        intro s hs hsu
        have hst : s.token = keep := c7 ⟨k, hk, hkuid, hktok⟩ s hs hsu
        exact List.inj_on_of_nodup_map hnd (c4 s hs) hk (hst.trans hktok.symm)
      refine ⟨hone, ?_⟩
      intro now s hs
      rcases List.mem_filter.mp hs with ⟨hs1, hs2⟩
      simp only [decide_eq_true_eq] at hs2
      have h8 := hone s hs1 hs2.1
      exact ⟨h8, h8 ▸ hs2.2⟩

/-- C5 witness: user 1 has two sessions (tokens tokA, created at 0, and
tokB, created at 10); enforcing the limit keeping tokB evicts exactly one —
the older tokA session — and keeps the tokB session. -/
theorem enforceSessionLimit_spec_witness :
    (enforceSessionLimit [sessionA, sessionB] 1 "tokB").1
      = ([sessionA, sessionB].filter (fun s => decide (s.userId = 1))).length
        - MAX_SESSIONS_PER_USER ∧
    sessionB ∈ (enforceSessionLimit [sessionA, sessionB] 1 "tokB").2 := by
  have h := enforceSessionLimit_spec [sessionA, sessionB] 1 "tokB" (by decide)
  refine ⟨(h.2.1 (by decide)).1, ?_⟩
  exact (h.2.1 (by decide)).2.2.1 sessionB (by decide) (by decide)
